import Mathlib

/-!
Shallow embedding of `search_r1/llm_agent/tensor_helper.py` (class
`TensorHelper`), together with proofs about its batch-tensor operations.

A token batch is a `List (List Int)`: a list of rows, each row a list of
token ids.  The configuration field `pad_token_id` is passed explicitly as
`pad`.  Python/torch subtleties are modelled faithfully; in particular the
slice `t[:, -k:]` with `k = 0` keeps every column (since `-0 = 0` in
Python), assertions and out-of-range list indexing are modelled with
`Except`, and `max` of an empty Python list (which raises `ValueError`) is
modelled with `Option`.
-/

namespace TensorHelper

/-- Python slice `row[-k:]` on a list: for `k = 0` this is `row[0:]`, the
whole row (since `-0 = 0` in Python); for `k > 0` it keeps the last `k`
entries (all of them when `k ≥ row.length`). -/
def pySliceLast (k : Nat) (row : List Int) : List Int :=
  if k = 0 then row else row.drop (row.length - k)

/-- Python slice `row[:k]` on a list (for `k ≥ 0`). -/
def pySliceFirst (k : Nat) (row : List Int) : List Int :=
  row.take k

/-- Embeds `tensor_dict['attention_mask'].sum(dim=1).max()`: the maximum over rows
of the row sums.  (`torch.max` of an empty batch raises; the claims below
only use non-empty batches, where `foldl max 0` over the non-negative row
sums agrees with it.) -/
def effective_len (attention_mask : List (List Int)) : Int :=
  (attention_mask.map List.sum).foldl max 0

/-- Slice every row of `t` to `tensor[:, -k:]` (when `cut_left`) or to
`tensor[:, :k]` (otherwise). -/
def cut_tensor (cut_left : Bool) (k : Nat) (t : List (List Int)) : List (List Int) :=
  t.map (fun row => if cut_left then pySliceLast k row else pySliceFirst k row)

/-- Embeds `TensorHelper.cut_to_effective_len`.  The tensor dict is an association
list; the entries named in `keys` are sliced to the effective length, every
other entry is returned untouched (`result = tensor_dict.copy()`). -/
def cut_to_effective_len (tensor_dict : List (String × List (List Int)))
    (keys : List String) (cut_left : Bool) : List (String × List (List Int)) :=
  let el := (effective_len ((tensor_dict.lookup "attention_mask").getD [])).toNat
  tensor_dict.map (fun kv => if kv.1 ∈ keys then (kv.1, cut_tensor cut_left el kv.2) else kv)

/-- The 0/1 sort key of one token in `convert_pad_structure`:
`tensor != pad_token_id` when padding to the left, `tensor == pad_token_id`
when padding to the right (torch bool mask cast by `.to(torch.int64)`). -/
def maskKey (pad : Int) (pad_to_left : Bool) (t : Int) : Nat :=
  if pad_to_left then (if t ≠ pad then 1 else 0) else (if t = pad then 1 else 0)

/-- Stable ascending argsort of a row of 0/1 keys
(`mask.to(torch.int64).argsort(dim=1, stable=True)`): the positions holding
key `0`, in their original order, followed by the positions holding a
nonzero key, in their original order — the defining property of a stable
ascending sort on two-valued keys. -/
def stableArgsort (keys : List Nat) : List Nat :=
  ((List.range keys.length).filter (fun i => keys.getD i 0 == 0)) ++
  ((List.range keys.length).filter (fun i => !(keys.getD i 0 == 0)))

/-- Embeds `tensor.gather(1, idx)` on one row: the list of entries of `row` at the
positions listed by `idx`. -/
def gatherRow (row : List Int) (idx : List Nat) : List Int :=
  idx.map (fun i => row.getD i 0)

/-- One row of `TensorHelper.convert_pad_structure`: build the sort key of
every position, stable-argsort them, gather. -/
def convertRow (pad : Int) (pad_to_left : Bool) (row : List Int) : List Int × List Nat :=
  let idx := stableArgsort (row.map (maskKey pad pad_to_left))
  (gatherRow row idx, idx)

/-- Embeds `TensorHelper.convert_pad_structure`: the reordered batch together with
the permutation indices, row by row. -/
def convert_pad_structure (pad : Int) (tensor : List (List Int)) (pad_to_left : Bool) :
    List (List Int) × List (List Nat) :=
  (tensor.map (fun row => (convertRow pad pad_to_left row).1),
   tensor.map (fun row => (convertRow pad pad_to_left row).2))

/-- Embeds `TensorHelper.create_attention_mask`:
`torch.where(input_ids != pad_token_id, 1, 0)`. -/
def create_attention_mask (pad : Int) (input_ids : List (List Int)) : List (List Int) :=
  input_ids.map (fun row => row.map (fun t => if t ≠ pad then (1 : Int) else 0))

/-- Inclusive running sums from an accumulator (`torch.cumsum(·, dim=1)` on
one row starts from accumulator `0`). -/
def cumsumFrom (acc : Int) : List Int → List Int
  | [] => []
  | x :: xs => (acc + x) :: cumsumFrom (acc + x) xs

/-- Embeds `TensorHelper.create_position_ids`:
`(torch.cumsum(attention_mask, dim=1) - 1) * attention_mask`. -/
def create_position_ids (attention_mask : List (List Int)) : List (List Int) :=
  attention_mask.map (fun row => List.zipWith (fun c m => (c - 1) * m) (cumsumFrom 0 row) row)

/-- Embeds `torch.cat(tensors, dim=1)`: row-wise concatenation (`torch.cat`
requires the batches to share their row count). -/
def cat_dim1 : List (List (List Int)) → List (List Int)
  | [] => []
  | [t] => t
  | t :: t' :: ts => List.zipWith (fun a b => a ++ b) t (cat_dim1 (t' :: ts))

/-- Embeds `TensorHelper.concatenate_with_padding`: concatenate along the sequence
dimension, then normalize the padding side with `convert_pad_structure`,
dropping the permutation. -/
def concatenate_with_padding (pad : Int) (tensors : List (List (List Int)))
    (pad_to_left : Bool) : List (List Int) :=
  (convert_pad_structure pad (cat_dim1 tensors) pad_to_left).1

/-- The error outcomes of the example-level padders: a failed `assert`, or
an out-of-range list index in the string-filling loop. -/
inductive PadErr where
  | assertionError : PadErr
  | indexError : PadErr
deriving DecidableEq

/-- Row-level semantics of the boolean-mask assignment
`padded[active_mask] = responses` performed after
`padded = torch.full((batch_size, seq_len), pad)`: the i-th `True` position
of the mask receives the i-th source row, every `False` position keeps the
pad-filled row.  (A `True` position with no source row left cannot occur
under the asserted precondition; it keeps the pad row so that the function
stays total.) -/
def scatterRows {α : Type} (padRow : List α) : List Bool → List (List α) → List (List α)
  | [], _ => []
  | true :: m, r :: rs => r :: scatterRows padRow m rs
  | true :: m, [] => padRow :: scatterRows padRow m []
  | false :: m, rs => padRow :: scatterRows padRow m rs

/-- The string-filling loop of `_example_level_pad`: `s` is the running
index into `responses_str`; an active position whose index is out of range
of `responses_str` raises (`indexError`), an inactive position keeps the
empty string. -/
def scatterStrs (strs : List String) : List Bool → Nat → Except PadErr (List String)
  | [], _ => Except.ok []
  | true :: m, s =>
    match strs[s]? with
    | some str => Except.map (fun l => str :: l) (scatterStrs strs m (s + 1))
    | none => Except.error PadErr.indexError
  | false :: m, s => Except.map (fun l => "" :: l) (scatterStrs strs m s)

/-- Embeds `TensorHelper._example_level_pad`: assert, scatter the token rows, then
run the string-filling loop. -/
def _example_level_pad (pad_token_id : Int) (responses : List (List Int))
    (responses_str : List String) (active_mask : List Bool) :
    Except PadErr (List (List Int) × List String) :=
  if active_mask.count true = responses.length then
    match scatterStrs responses_str active_mask 0 with
    | Except.ok strs =>
      Except.ok (scatterRows (List.replicate (responses.headD []).length pad_token_id)
        active_mask responses, strs)
    | Except.error e => Except.error e
  else Except.error PadErr.assertionError

/-- Embeds `TensorHelper._example_level_pad_tensor`. -/
def _example_level_pad_tensor {α : Type} (x : List (List α)) (active_mask : List Bool)
    (pad_value : α) : Except PadErr (List (List α)) :=
  if active_mask.count true = x.length then
    Except.ok (scatterRows (List.replicate (x.headD []).length pad_value) active_mask x)
  else Except.error PadErr.assertionError

/-- Embeds `TensorHelper.pad_and_stack`.  `max` of an empty Python list raises
(`ValueError`), modelled as `none`; `pad_value = None` selects
`pad_token_id`. -/
def pad_and_stack (pad_token_id : Int) (tensor_list : List (List Int))
    (pad_to_left : Bool) (pad_value : Option Int) : Option (List (List Int)) :=
  if tensor_list.isEmpty then none
  else
    let max_length := (tensor_list.map List.length).foldl max 0
    let pv := pad_value.getD pad_token_id
    some (tensor_list.map (fun t =>
      if pad_to_left then List.replicate (max_length - t.length) pv ++ t
      else t ++ List.replicate (max_length - t.length) pv))

/-- Cell access in a batch, with default values out of range. -/
def cell (t : List (List Int)) (i j : Nat) : Int :=
  (t.getD i []).getD j 0

/-- A row carries its padding on the left: all copies of `pad` precede all
real tokens. -/
def paddedLeft (pad : Int) (row : List Int) : Prop :=
  row = List.replicate (row.count pad) pad ++ row.filter (fun t => !(t == pad))

/-- A row carries its padding on the right: all real tokens precede all
copies of `pad`. -/
def paddedRight (pad : Int) (row : List Int) : Prop :=
  row = row.filter (fun t => !(t == pad)) ++ List.replicate (row.count pad) pad

/-! ### Helper lemmas -/

theorem getD_map_of_lt {α β : Type} (f : α → β) (l : List α) (d : α) (d' : β) (i : Nat)
    (h : i < l.length) : (l.map f).getD i d' = f (l.getD i d) := by
  rw [List.getD_eq_getElem _ _ (by simpa using h), List.getD_eq_getElem _ _ h,
    List.getElem_map]

theorem map_getD_filter_range {α : Type} (p : α → Bool) (d : α) (l : List α) :
    ((List.range l.length).filter (fun i => p (l.getD i d))).map (fun i => l.getD i d) =
      l.filter p := by
  induction l with
  | nil => simp
  | cons a t ih =>
    have hcomp : ((fun i => p ((a :: t).getD i d)) ∘ Nat.succ) =
        (fun i => p (t.getD i d)) := by
      funext i
      simp [Function.comp, List.getD_cons_succ]
    have hmapcomp : ((fun i => (a :: t).getD i d) ∘ Nat.succ) =
        (fun i => t.getD i d) := by
      funext i
      simp [Function.comp, List.getD_cons_succ]
    have hsucc : ((List.range t.length).map Nat.succ).filter
        (fun i => p ((a :: t).getD i d)) =
        ((List.range t.length).filter (fun i => p (t.getD i d))).map Nat.succ := by
      rw [List.filter_map, hcomp]
    rw [List.length_cons, List.range_succ_eq_map, List.filter_cons, hsucc]
    by_cases hpa : p a = true
    · simp only [List.getD_cons_zero, hpa, if_pos, List.map_cons, List.map_map, hmapcomp,
        ih, List.filter_cons]
    · simp only [List.getD_cons_zero, hpa, if_neg, Bool.false_eq_true, not_false_iff,
        List.map_map, hmapcomp, ih, List.filter_cons]

theorem map_getD_range {α : Type} (d : α) (l : List α) :
    (List.range l.length).map (fun i => l.getD i d) = l := by
  have h := map_getD_filter_range (fun _ => true) d l
  simpa using h

theorem stableArgsort_perm (keys : List Nat) :
    (stableArgsort keys).Perm (List.range keys.length) :=
  List.filter_append_perm _ _

theorem gatherRow_perm (row : List Int) (idx : List Nat)
    (h : idx.Perm (List.range row.length)) : (gatherRow row idx).Perm row := by
  have h2 := h.map (fun i => row.getD i 0)
  rw [map_getD_range 0 row] at h2
  exact h2

theorem gather_stableArgsort (row : List Int) (f : Int → Nat) :
    gatherRow row (stableArgsort (row.map f)) =
      row.filter (fun t => f t == 0) ++ row.filter (fun t => !(f t == 0)) := by
  unfold gatherRow stableArgsort
  rw [List.map_append, List.length_map]
  have hkey : ∀ i ∈ List.range row.length,
      ((row.map f).getD i 0 == 0) = (f (row.getD i 0) == 0) := by
    intro i hi
    rw [getD_map_of_lt f row 0 0 i (List.mem_range.mp hi)]
  congr 1
  · rw [List.filter_congr hkey]
    exact map_getD_filter_range (fun t => f t == 0) 0 row
  · rw [List.filter_congr (fun i hi => by rw [hkey i hi])]
    exact map_getD_filter_range (fun t => !(f t == 0)) 0 row

theorem maskKey_left_eq_zero (pad t : Int) :
    (maskKey pad true t == 0) = (t == pad) := by
  by_cases h : t = pad <;> simp [maskKey, h]

theorem maskKey_right_eq_zero (pad t : Int) :
    (maskKey pad false t == 0) = !(t == pad) := by
  by_cases h : t = pad <;> simp [maskKey, h]

/-- The reordered row of `convert_pad_structure`: the tokens equal to `pad`
in their original order on the requested side, the real tokens in their
original order on the other side. -/
theorem convertRow_fst (pad : Int) (ptl : Bool) (row : List Int) :
    (convertRow pad ptl row).1 =
      if ptl then
        row.filter (fun t => t == pad) ++ row.filter (fun t => !(t == pad))
      else
        row.filter (fun t => !(t == pad)) ++ row.filter (fun t => t == pad) := by
  cases ptl with
  | true =>
    rw [if_pos rfl]
    have h := gather_stableArgsort row (maskKey pad true)
    have h1 : row.filter (fun t => maskKey pad true t == 0) =
        row.filter (fun t => t == pad) :=
      List.filter_congr (fun t _ => maskKey_left_eq_zero pad t)
    have h2 : row.filter (fun t => !(maskKey pad true t == 0)) =
        row.filter (fun t => !(t == pad)) :=
      List.filter_congr (fun t _ => by rw [maskKey_left_eq_zero pad t])
    rw [h1, h2] at h
    exact h
  | false =>
    rw [if_neg (by simp)]
    have h := gather_stableArgsort row (maskKey pad false)
    have h1 : row.filter (fun t => maskKey pad false t == 0) =
        row.filter (fun t => !(t == pad)) :=
      List.filter_congr (fun t _ => maskKey_right_eq_zero pad t)
    have h2 : row.filter (fun t => !(maskKey pad false t == 0)) =
        row.filter (fun t => t == pad) :=
      List.filter_congr (fun t _ => by rw [maskKey_right_eq_zero pad t, Bool.not_not])
    rw [h1, h2] at h
    exact h

theorem filter_beq_eq_replicate {α : Type} [DecidableEq α] (a : α) (l : List α) :
    l.filter (fun t => t == a) = List.replicate (l.count a) a := by
  induction l with
  | nil => simp
  | cons b t ih =>
    by_cases hb : b = a <;>
      simp [List.filter_cons, List.count_cons, hb, ih, List.replicate_succ]

theorem convertRow_fst_pads (pad : Int) (ptl : Bool) (row : List Int) :
    (convertRow pad ptl row).1 =
      if ptl then
        List.replicate (row.count pad) pad ++ row.filter (fun t => !(t == pad))
      else
        row.filter (fun t => !(t == pad)) ++ List.replicate (row.count pad) pad := by
  rw [convertRow_fst, filter_beq_eq_replicate]

theorem convertRow_idx_perm (pad : Int) (ptl : Bool) (row : List Int) :
    (convertRow pad ptl row).2.Perm (List.range row.length) := by
  have h := stableArgsort_perm (row.map (maskKey pad ptl))
  rw [List.length_map] at h
  exact h

theorem convertRow_perm (pad : Int) (ptl : Bool) (row : List Int) :
    (convertRow pad ptl row).1.Perm row :=
  gatherRow_perm row _ (convertRow_idx_perm pad ptl row)

theorem convertRow_filter_ne (pad : Int) (ptl : Bool) (row : List Int) :
    (convertRow pad ptl row).1.filter (fun t => !(t == pad)) =
      row.filter (fun t => !(t == pad)) := by
  have hrep : (List.replicate (row.count pad) pad).filter (fun t => !(t == pad)) = [] := by
    simp [List.filter_replicate]
  have hid : (row.filter (fun t => !(t == pad))).filter (fun t => !(t == pad)) =
      row.filter (fun t => !(t == pad)) := by
    rw [List.filter_filter]
    exact List.filter_congr (fun t _ => by cases h : (t == pad) <;> simp [h])
  rw [convertRow_fst_pads]
  cases ptl <;> simp [List.filter_append, hrep, hid]

theorem convert_fst_getD (pad : Int) (ptl : Bool) (b : List (List Int)) (i : Nat)
    (h : i < b.length) :
    (convert_pad_structure pad b ptl).1.getD i [] = (convertRow pad ptl (b.getD i [])).1 :=
  getD_map_of_lt _ b [] [] i h

theorem convert_snd_getD (pad : Int) (ptl : Bool) (b : List (List Int)) (i : Nat)
    (h : i < b.length) :
    (convert_pad_structure pad b ptl).2.getD i [] = (convertRow pad ptl (b.getD i [])).2 :=
  getD_map_of_lt _ b [] [] i h

theorem convert_fst_length (pad : Int) (ptl : Bool) (b : List (List Int)) :
    (convert_pad_structure pad b ptl).1.length = b.length :=
  List.length_map b _

/-! ### Claims about `convert_pad_structure` -/

/-- What `convert_pad_structure` guarantees for row `i` of batch `b`: the
gather identity, the index row is a permutation of the column positions,
the output row is a permutation of the input row (nothing dropped or
duplicated), the real tokens keep their relative order, and every pad token
sits on the requested side. -/
def ConvertedRowSpec (pad : Int) (b : List (List Int)) (ptl : Bool) (i : Nat) : Prop :=
  (convert_pad_structure pad b ptl).1.getD i [] =
      gatherRow (b.getD i []) ((convert_pad_structure pad b ptl).2.getD i []) ∧
  ((convert_pad_structure pad b ptl).2.getD i []).Perm
      (List.range (b.getD i []).length) ∧
  ((convert_pad_structure pad b ptl).1.getD i []).Perm (b.getD i []) ∧
  ((convert_pad_structure pad b ptl).1.getD i []).filter (fun t => !(t == pad)) =
      (b.getD i []).filter (fun t => !(t == pad)) ∧
  (convert_pad_structure pad b ptl).1.getD i [] =
      (if ptl then
        List.replicate ((b.getD i []).count pad) pad ++
          (b.getD i []).filter (fun t => !(t == pad))
      else
        (b.getD i []).filter (fun t => !(t == pad)) ++
          List.replicate ((b.getD i []).count pad) pad)

/-- C2: on every row, `convert_pad_structure` puts all pad tokens on the
requested side, keeps the relative order of the real tokens (stability),
returns indices whose gather reproduces the output, and the output row is a
permutation of the input row — no token dropped or duplicated. -/
theorem convert_pad_structure_moves_pads (pad : Int) (b : List (List Int)) (ptl : Bool)
    (i : Nat) (h : i < b.length) : ConvertedRowSpec pad b ptl i := by
  have h1 := convert_fst_getD pad ptl b i h
  have h2 := convert_snd_getD pad ptl b i h
  refine ⟨?_, ?_, ?_, ?_, ?_⟩
  · rw [h1, h2]
    rfl
  · rw [h2]
    exact convertRow_idx_perm pad ptl (b.getD i [])
  · rw [h1]
    exact convertRow_perm pad ptl (b.getD i [])
  · rw [h1]
    exact convertRow_filter_ne pad ptl (b.getD i [])
  · rw [h1]
    exact convertRow_fst_pads pad ptl (b.getD i [])

theorem convert_pad_structure_moves_pads_witness :
    0 < ([[9, 1, 9, 2]] : List (List Int)).length ∧
      ConvertedRowSpec 9 [[9, 1, 9, 2]] true 0 :=
  ⟨by decide, convert_pad_structure_moves_pads 9 [[9, 1, 9, 2]] true 0 (by decide)⟩

/-- What the left → right → left pad-side round trip guarantees for row `i`
of batch `b`: the final row is a permutation of the original row and its
real tokens appear in the original order. -/
def RoundTripSpec (pad : Int) (b : List (List Int)) (i : Nat) : Prop :=
  ((convert_pad_structure pad
      (convert_pad_structure pad (convert_pad_structure pad b true).1 false).1
      true).1.getD i []).Perm (b.getD i []) ∧
  ((convert_pad_structure pad
      (convert_pad_structure pad (convert_pad_structure pad b true).1 false).1
      true).1.getD i []).filter (fun t => !(t == pad)) =
    (b.getD i []).filter (fun t => !(t == pad))

/-- C3: converting a batch to left padding, then to right padding, then to
left padding again reproduces every original row's contents: the final row
is a permutation of the original row (no token dropped or duplicated) and
the real tokens keep their original order. -/
theorem convert_pad_structure_roundtrip (pad : Int) (b : List (List Int)) (i : Nat)
    (h : i < b.length) : RoundTripSpec pad b i := by
  have hl1 : i < (convert_pad_structure pad b true).1.length := by
    rw [convert_fst_length]
    exact h
  have hl2 : i <
      (convert_pad_structure pad (convert_pad_structure pad b true).1 false).1.length := by
    rw [convert_fst_length, convert_fst_length]
    exact h
  have e1 := convert_fst_getD pad true b i h
  have e2 := convert_fst_getD pad false (convert_pad_structure pad b true).1 i hl1
  have e3 := convert_fst_getD pad true
    (convert_pad_structure pad (convert_pad_structure pad b true).1 false).1 i hl2
  constructor
  · rw [e3, e2, e1]
    exact ((convertRow_perm pad true _).trans (convertRow_perm pad false _)).trans
      (convertRow_perm pad true _)
  · rw [e3, e2, e1, convertRow_filter_ne, convertRow_filter_ne, convertRow_filter_ne]

theorem convert_pad_structure_roundtrip_witness :
    1 < ([[1, 0, 2], [0, 0, 3]] : List (List Int)).length ∧
      RoundTripSpec 0 [[1, 0, 2], [0, 0, 3]] 1 :=
  ⟨by decide, convert_pad_structure_roundtrip 0 [[1, 0, 2], [0, 0, 3]] 1 (by decide)⟩

/-! ### Claims about the mask/position deriver -/

theorem cumsumFrom_length (acc : Int) (l : List Int) :
    (cumsumFrom acc l).length = l.length := by
  induction l generalizing acc with
  | nil => rfl
  | cons x xs ih => simp [cumsumFrom, ih]

theorem cumsumFrom_getD (l : List Int) :
    ∀ (acc : Int) (j : Nat), j < l.length →
      (cumsumFrom acc l).getD j 0 = acc + (l.take (j + 1)).sum := by
  induction l with
  | nil =>
    intro acc j hj
    simp at hj
  | cons x xs ih =>
    intro acc j hj
    cases j with
    | zero => simp [cumsumFrom]
    | succ j' =>
      rw [cumsumFrom, List.getD_cons_succ, ih (acc + x) j' (by simpa using hj),
        List.take_succ_cons, List.sum_cons, add_assoc]

theorem mask_sum_eq_countP (pad : Int) (l : List Int) :
    (l.map (fun t => if t ≠ pad then (1 : Int) else 0)).sum =
      (l.countP (fun t => !(t == pad)) : Int) := by
  induction l with
  | nil => simp
  | cons a t ih =>
    rw [List.map_cons, List.sum_cons, List.countP_cons]
    by_cases ha : a = pad
    · rw [if_neg (not_not_intro ha), zero_add, ih]
      have hfa : (!(a == pad)) = false := by simp [ha]
      rw [hfa]
      simp
    · rw [if_pos ha, ih]
      have hta : (!(a == pad)) = true := by simp [ha]
      rw [hta]
      simp [add_comm]

theorem create_attention_mask_getD (pad : Int) (b : List (List Int)) (i : Nat)
    (h : i < b.length) :
    (create_attention_mask pad b).getD i [] =
      (b.getD i []).map (fun t => if t ≠ pad then (1 : Int) else 0) :=
  getD_map_of_lt _ b [] [] i h

theorem create_position_ids_getD (m : List (List Int)) (i : Nat) (h : i < m.length) :
    (create_position_ids m).getD i [] =
      List.zipWith (fun c mk => (c - 1) * mk) (cumsumFrom 0 (m.getD i [])) (m.getD i []) :=
  getD_map_of_lt _ m [] [] i h

/-- What the mask/position deriver guarantees at cell `(i, j)` of batch `b`:
the attention mask is `1` exactly where the token differs from `pad`; the
position id at a non-pad cell is the zero-based left-to-right rank of that
real token in its row (the count of non-pad tokens strictly before it); the
position id at a pad cell is `0`; and position ids are never negative. -/
def MaskPositionSpec (pad : Int) (b : List (List Int)) (i j : Nat) : Prop :=
  cell (create_attention_mask pad b) i j = (if cell b i j ≠ pad then 1 else 0) ∧
  (cell b i j ≠ pad →
    cell (create_position_ids (create_attention_mask pad b)) i j =
      (((b.getD i []).take j).countP (fun t => !(t == pad)) : Int)) ∧
  (cell b i j = pad →
    cell (create_position_ids (create_attention_mask pad b)) i j = 0) ∧
  0 ≤ cell (create_position_ids (create_attention_mask pad b)) i j

/-- C4: `create_attention_mask` marks exactly the non-pad cells with `1`,
and `create_position_ids` of that mask assigns each non-pad cell the
zero-based rank of its real token in the row, assigns `0` to every pad
cell, and never produces a negative value — uniformly in the padding
side, since the formula is a pure left-to-right cumulative count. -/
theorem create_position_ids_ranks (pad : Int) (b : List (List Int)) (i j : Nat)
    (hi : i < b.length) (hj : j < (b.getD i []).length) : MaskPositionSpec pad b i j := by
  have hA := create_attention_mask_getD pad b i hi
  have hAi : i < (create_attention_mask pad b).length := by
    unfold create_attention_mask
    rw [List.length_map]
    exact hi
  have hlenmap : ((b.getD i []).map (fun t => if t ≠ pad then (1 : Int) else 0)).length =
      (b.getD i []).length := List.length_map _ _
  have hlenc : (cumsumFrom 0
      ((b.getD i []).map (fun t => if t ≠ pad then (1 : Int) else 0))).length =
      (b.getD i []).length := by
    rw [cumsumFrom_length, hlenmap]
  have hcellA : cell (create_attention_mask pad b) i j =
      (if (b.getD i []).getD j 0 ≠ pad then (1 : Int) else 0) := by
    unfold cell
    rw [hA, getD_map_of_lt _ _ 0 0 j hj]
  have hjz : j < (List.zipWith (fun c mk => (c - 1) * mk)
      (cumsumFrom 0 ((b.getD i []).map (fun t => if t ≠ pad then (1 : Int) else 0)))
      ((b.getD i []).map (fun t => if t ≠ pad then (1 : Int) else 0))).length := by
    rw [List.length_zipWith, hlenc, hlenmap]
    simpa using hj
  have hcumj : (cumsumFrom 0
      ((b.getD i []).map (fun t => if t ≠ pad then (1 : Int) else 0))).getD j 0 =
      (((b.getD i []).take (j + 1)).countP (fun t => !(t == pad)) : Int) := by
    rw [cumsumFrom_getD _ 0 j (by rw [hlenmap]; exact hj), zero_add, ← List.map_take,
      mask_sum_eq_countP]
  have hcellP : cell (create_position_ids (create_attention_mask pad b)) i j =
      ((((b.getD i []).take (j + 1)).countP (fun t => !(t == pad)) : Int) - 1) *
        (if (b.getD i []).getD j 0 ≠ pad then (1 : Int) else 0) := by
    unfold cell
    rw [create_position_ids_getD _ i hAi, hA, List.getD_eq_getElem _ _ hjz,
      List.getElem_zipWith]
    rw [← List.getD_eq_getElem _ (0 : Int) (by rw [hlenc]; exact hj),
      ← List.getD_eq_getElem _ (0 : Int) (by rw [hlenmap]; exact hj),
      hcumj, getD_map_of_lt _ _ 0 0 j hj]
  have htake : (b.getD i []).take (j + 1) =
      (b.getD i []).take j ++ [(b.getD i []).getD j 0] := by
    rw [List.take_succ, List.getD_eq_getElem _ _ hj, List.getElem?_eq_getElem hj]
    rfl
  by_cases hc : (b.getD i []).getD j 0 = pad
  · refine ⟨?_, ?_, ?_, ?_⟩
    · rw [hcellA]
      rfl
    · intro hne
      exact absurd hc hne
    · intro _
      rw [hcellP, if_neg (by simpa using hc), mul_zero]
    · rw [hcellP, if_neg (by simpa using hc), mul_zero]
  · have hcount : ((b.getD i []).take (j + 1)).countP (fun t => !(t == pad)) =
        ((b.getD i []).take j).countP (fun t => !(t == pad)) + 1 := by
      have hxone : List.countP (fun t => !(t == pad)) [(b.getD i []).getD j 0] = 1 := by
        have hfx : ((b.getD i []).getD j 0 == pad) = false := beq_eq_false_iff_ne.mpr hc
        rw [List.countP_cons, List.countP_nil, hfx]
        simp
      rw [htake, List.countP_append, hxone]
    refine ⟨?_, ?_, ?_, ?_⟩
    · rw [hcellA]
      rfl
    · intro _
      rw [hcellP, if_pos hc, mul_one, hcount]
      push_cast
      ring
    · intro heq
      exact absurd heq hc
    · rw [hcellP, if_pos hc, mul_one, hcount]
      push_cast
      simp

theorem create_position_ids_ranks_witness :
    (0 < ([[4, 4, 7, 4, 8]] : List (List Int)).length ∧
      2 < (([[4, 4, 7, 4, 8]] : List (List Int)).getD 0 []).length) ∧
      MaskPositionSpec 4 [[4, 4, 7, 4, 8]] 0 2 :=
  ⟨⟨by decide, by decide⟩,
    create_position_ids_ranks 4 [[4, 4, 7, 4, 8]] 0 2 (by decide) (by decide)⟩

/-! ### Claims about `cut_to_effective_len` -/

theorem foldl_max_eq_zero_of_all_zero (l : List Int) (h : ∀ x ∈ l, x = 0) :
    l.foldl max 0 = 0 := by
  induction l with
  | nil => rfl
  | cons x t ih =>
    have hx : x = 0 := h x (List.mem_cons_self x t)
    have ht : ∀ y ∈ t, y = 0 := fun y hy => h y (List.mem_cons_of_mem x hy)
    simp [hx, ih ht]

theorem effective_len_all_zero (am : List (List Int))
    (h : ∀ r ∈ am, ∀ x ∈ r, x = (0 : Int)) : effective_len am = 0 := by
  unfold effective_len
  apply foldl_max_eq_zero_of_all_zero
  intro x hx
  rcases List.mem_map.mp hx with ⟨r, hr, hsum⟩
  rw [← hsum]
  exact List.sum_eq_zero (h r hr)

theorem cut_tensor_true_zero (t : List (List Int)) : cut_tensor true 0 t = t := by
  unfold cut_tensor pySliceLast
  simp

/-- What `cut_to_effective_len` does on a batch whose attention mask is all
zeros: the effective length is `0`; with `cut_left = false` every tensor
named in `keys` is trimmed to zero width; with `cut_left = true` the Python
slice `[:, -0:]` keeps every column, so the whole dict is returned
unchanged.  Neither direction raises. -/
def AllPaddedCutSpec (dict : List (String × List (List Int))) (keys : List String)
    (am : List (List Int)) : Prop :=
  effective_len am = 0 ∧
  (∀ k t, (k, t) ∈ cut_to_effective_len dict keys false → k ∈ keys →
    ∀ r ∈ t, r = ([] : List Int)) ∧
  cut_to_effective_len dict keys true = dict

/-- C1 (amended): if every row of the attention mask is fully padded then
`effective_len = 0`; with `cut_left = false` every tensor named in `keys`
comes back with zero width, but with `cut_left = true` the Python slice
`[:, -effective_len:]` degenerates to `[:, 0:]` and every named tensor is
returned unchanged at full width.  Neither case raises. -/
theorem cut_to_effective_len_all_padded (dict : List (String × List (List Int)))
    (keys : List String) (am : List (List Int))
    (hlook : dict.lookup "attention_mask" = some am)
    (hzero : ∀ r ∈ am, ∀ x ∈ r, x = (0 : Int)) : AllPaddedCutSpec dict keys am := by
  have h0 : effective_len am = 0 := effective_len_all_zero am hzero
  have hel : (effective_len ((dict.lookup "attention_mask").getD [])).toNat = 0 := by
    rw [hlook, Option.getD_some, h0, Int.toNat_zero]
  refine ⟨h0, ?_, ?_⟩
  · intro k t hmem hk r hr
    unfold cut_to_effective_len at hmem
    rw [hel] at hmem
    rcases List.mem_map.mp hmem with ⟨kv, _, hkv⟩
    by_cases hkm : kv.1 ∈ keys
    · rw [if_pos hkm] at hkv
      have ht : t = cut_tensor false 0 kv.2 := (congrArg Prod.snd hkv).symm
      rw [ht] at hr
      unfold cut_tensor pySliceFirst at hr
      rcases List.mem_map.mp hr with ⟨row, _, hrow⟩
      rw [← hrow]
      simp
    · rw [if_neg hkm] at hkv
      have hk1 : kv.1 = k := congrArg Prod.fst hkv
      rw [hk1] at hkm
      exact absurd hk hkm
  · unfold cut_to_effective_len
    rw [hel]
    have hfun : ∀ kv : String × List (List Int),
        (if kv.1 ∈ keys then (kv.1, cut_tensor true 0 kv.2) else kv) = kv := by
      intro kv
      rw [cut_tensor_true_zero]
      split <;> rfl
    calc dict.map (fun kv => if kv.1 ∈ keys then (kv.1, cut_tensor true 0 kv.2) else kv)
        = dict.map (fun kv => kv) := List.map_congr_left (fun kv _ => hfun kv)
      _ = dict := List.map_id' dict

theorem cut_to_effective_len_all_padded_witness :
    (([("attention_mask", [[0]]), ("input_ids", [[7]])] :
        List (String × List (List Int))).lookup "attention_mask" = some [[0]] ∧
      (∀ r ∈ ([[0]] : List (List Int)), ∀ x ∈ r, x = (0 : Int))) ∧
    AllPaddedCutSpec [("attention_mask", [[0]]), ("input_ids", [[7]])] ["input_ids"] [[0]] :=
  ⟨⟨by decide, by decide⟩,
    cut_to_effective_len_all_padded [("attention_mask", [[0]]), ("input_ids", [[7]])]
      ["input_ids"] [[0]] (by decide) (by decide)⟩

/-- C1 counterexample: the batch `[[0]]` is fully padded (attention mask
all zeros) and `effective_len = 0`, yet with `cut_left = true` the named
tensor `input_ids = [[7]]` is returned at its full width `1`, not width
`0`: the Python slice `[:, -0:]` keeps every column. -/
theorem cut_to_effective_len_all_padded_full_width :
    effective_len [[0]] = 0 ∧
    cut_to_effective_len [("attention_mask", [[0]]), ("input_ids", [[7]])]
        ["input_ids"] true =
      [("attention_mask", [[0]]), ("input_ids", [[7]])] ∧
    (([[7]] : List (List Int)).getD 0 []).length = 1 := by
  refine ⟨by decide, by decide, by decide⟩

theorem foldl_max_acc_le (l : List Nat) : ∀ acc : Nat, acc ≤ l.foldl max acc := by
  induction l with
  | nil => intro acc; exact le_refl acc
  | cons x t ih => intro acc; exact le_trans (le_max_left acc x) (ih (max acc x))

theorem mem_le_foldl_max (l : List Nat) :
    ∀ (acc a : Nat), a ∈ l → a ≤ l.foldl max acc := by
  induction l with
  | nil =>
    intro acc a ha
    simp at ha
  | cons x t ih =>
    intro acc a ha
    rcases List.mem_cons.mp ha with h | h
    · subst h
      exact le_trans (le_max_right acc a) (foldl_max_acc_le t (max acc a))
    · exact ih (max acc x) a h

theorem foldl_max_le_of_forall (l : List Nat) (w : Nat) :
    ∀ acc : Nat, acc ≤ w → (∀ a ∈ l, a ≤ w) → l.foldl max acc ≤ w := by
  induction l with
  | nil =>
    intro acc hacc _
    exact hacc
  | cons x t ih =>
    intro acc hacc h
    exact ih (max acc x) (max_le hacc (h x (List.mem_cons_self x t)))
      (fun a ha => h a (List.mem_cons_of_mem x ha))

theorem intCast_max (m n : Nat) : ((max m n : Nat) : Int) = max (m : Int) (n : Int) := by
  rcases le_total m n with h | h
  · rw [max_eq_right h, max_eq_right (by exact_mod_cast h)]
  · rw [max_eq_left h, max_eq_left (by exact_mod_cast h)]

theorem foldl_max_natCast (l : List Nat) :
    ∀ acc : Nat,
      (l.map (fun n : Nat => (n : Int))).foldl max ((acc : Nat) : Int) =
        ((l.foldl max acc : Nat) : Int) := by
  induction l with
  | nil => intro acc; rfl
  | cons x t ih =>
    intro acc
    rw [List.map_cons, List.foldl_cons, List.foldl_cons, ← intCast_max, ih]

/-- The effective length computed from a freshly derived attention mask is
the maximum over rows of the count of non-pad tokens. -/
theorem effective_len_create_attention_mask (pad : Int) (t : List (List Int)) :
    (effective_len (create_attention_mask pad t)).toNat =
      (t.map (fun r => r.countP (fun x => !(x == pad)))).foldl max 0 := by
  unfold effective_len create_attention_mask
  rw [List.map_map]
  have h1 : t.map (List.sum ∘ fun row => row.map (fun x => if x ≠ pad then (1 : Int) else 0)) =
      t.map (fun r => ((r.countP (fun x => !(x == pad)) : Nat) : Int)) :=
    List.map_congr_left (fun r _ => mask_sum_eq_countP pad r)
  have h2 : t.map (fun r => ((r.countP (fun x => !(x == pad)) : Nat) : Int)) =
      (t.map (fun r => r.countP (fun x => !(x == pad)))).map (fun n : Nat => (n : Int)) := by
    rw [List.map_map]
    rfl
  rw [h1, h2]
  have h3 := foldl_max_natCast (t.map (fun r => r.countP (fun x => !(x == pad)))) 0
  rw [show (((0 : Nat) : Int)) = (0 : Int) from rfl] at h3
  rw [h3, Int.toNat_natCast]

theorem countP_nonpad_replicate (pad : Int) (n : Nat) :
    (List.replicate n pad).countP (fun x => !(x == pad)) = 0 := by
  rw [List.countP_eq_zero]
  intro a ha
  rw [List.eq_of_mem_replicate ha]
  simp

theorem countP_drop_of_prefix_pad (pad : Int) (p : Nat) (s : List Int) (el : Nat)
    (hel : s.length ≤ el) :
    ((List.replicate p pad ++ s).drop ((List.replicate p pad ++ s).length - el)).countP
        (fun x => !(x == pad)) =
      (List.replicate p pad ++ s).countP (fun x => !(x == pad)) := by
  rw [List.drop_append_eq_append_drop, List.drop_replicate]
  have hj0 : (List.replicate p pad ++ s).length - el - (List.replicate p pad).length = 0 := by
    rw [List.length_append, List.length_replicate]
    omega
  rw [hj0, List.drop_zero, List.countP_append, List.countP_append,
    countP_nonpad_replicate, countP_nonpad_replicate]

theorem countP_take_of_suffix_pad (pad : Int) (p : Nat) (s : List Int) (el : Nat)
    (hel : s.length ≤ el) :
    ((s ++ List.replicate p pad).take el).countP (fun x => !(x == pad)) =
      (s ++ List.replicate p pad).countP (fun x => !(x == pad)) := by
  rw [List.take_append_eq_append_take, List.take_of_length_le hel, List.countP_append,
    List.countP_append, countP_nonpad_replicate, List.take_replicate,
    countP_nonpad_replicate]

/-- What the effective-length trim guarantees on a tensor `t` whose rows
are padded on the side matching `cl` and whose mask is derived from `t`:
the effective length `el` is the maximum over rows of the non-pad count;
trimming never loses a real token; with `cut_left = true` the kept columns
are a suffix of width exactly `el` provided `el > 0`; with
`cut_left = false` they are a prefix of width exactly `el`. -/
def CutKeptSpec (pad : Int) (cl : Bool) (el : Nat) (t : List (List Int)) : Prop :=
  el = (t.map (fun r => r.countP (fun x => !(x == pad)))).foldl max 0 ∧
  (∀ r ∈ t, ((if cl then pySliceLast el r else pySliceFirst el r).countP
      (fun x => !(x == pad))) = r.countP (fun x => !(x == pad))) ∧
  (cl = true → 0 < el → ∀ r ∈ t,
      ∃ u, r = u ++ pySliceLast el r ∧ (pySliceLast el r).length = el) ∧
  (cl = false → ∀ r ∈ t,
      ∃ v, r = pySliceFirst el r ++ v ∧ (pySliceFirst el r).length = el)

/-- C5 (amended): under the stated preconditions (the dict's
`attention_mask` is the derived mask of the named tensor, rows rectangular,
padding on the side matching `cut_left`), the trimmed entry appears in the
result, `effective_len` is the max over rows of the non-pad count, and no
real token is lost; the slice keeps exactly the last `effective_len`
columns when `cut_left = true` **and `effective_len > 0`** (when
`effective_len = 0` the Python slice `[:, -0:]` keeps the full width), and
exactly the first `effective_len` columns when `cut_left = false`. -/
theorem cut_to_effective_len_keeps_tokens (pad : Int)
    (dict : List (String × List (List Int))) (keys : List String) (cl : Bool)
    (k : String) (t : List (List Int)) (w : Nat)
    (hlook : dict.lookup "attention_mask" = some (create_attention_mask pad t))
    (hmem : (k, t) ∈ dict) (hk : k ∈ keys)
    (hrect : ∀ r ∈ t, r.length = w)
    (hside : ∀ r ∈ t, (cl = true → paddedLeft pad r) ∧ (cl = false → paddedRight pad r)) :
    (k, cut_tensor cl ((effective_len (create_attention_mask pad t)).toNat) t) ∈
        cut_to_effective_len dict keys cl ∧
      CutKeptSpec pad cl ((effective_len (create_attention_mask pad t)).toNat) t := by
  have helc := effective_len_create_attention_mask pad t
  have hle : ∀ r ∈ t, r.countP (fun x => !(x == pad)) ≤
      (effective_len (create_attention_mask pad t)).toNat := by
    intro r hr
    rw [helc]
    exact mem_le_foldl_max _ 0 _
      (List.mem_map_of_mem (fun r => r.countP (fun x => !(x == pad))) hr)
  have helw : (effective_len (create_attention_mask pad t)).toNat ≤ w := by
    rw [helc]
    refine foldl_max_le_of_forall _ w 0 (Nat.zero_le w) ?_
    intro a ha
    rcases List.mem_map.mp ha with ⟨r, hr, hra⟩
    rw [← hra]
    exact le_trans (List.countP_le_length _) (le_of_eq (hrect r hr))
  have hflen : ∀ r ∈ t, (r.filter (fun x => !(x == pad))).length ≤
      (effective_len (create_attention_mask pad t)).toNat := by
    intro r hr
    rw [← List.countP_eq_length_filter]
    exact hle r hr
  constructor
  · have hmem2 : ((fun kv : String × List (List Int) =>
        if kv.1 ∈ keys then
          (kv.1, cut_tensor cl
            ((effective_len ((dict.lookup "attention_mask").getD [])).toNat) kv.2)
        else kv) (k, t)) ∈ cut_to_effective_len dict keys cl :=
      List.mem_map_of_mem _ hmem
    rw [hlook, Option.getD_some] at hmem2
    simpa [hk] using hmem2
  · refine ⟨helc, ?_, ?_, ?_⟩
    · intro r hr
      cases cl with
      | true =>
        rw [if_pos rfl]
        have hpl := (hside r hr).1 rfl
        by_cases h0 : (effective_len (create_attention_mask pad t)).toNat = 0
        · rw [h0]
          rw [pySliceLast, if_pos rfl]
        · rw [pySliceLast, if_neg h0]
          conv_lhs => rw [hpl]
          conv_rhs => rw [hpl]
          exact countP_drop_of_prefix_pad pad (r.count pad) (r.filter (fun x => !(x == pad)))
            _ (hflen r hr)
      | false =>
        rw [if_neg (by simp)]
        have hpr := (hside r hr).2 rfl
        rw [pySliceFirst]
        conv_lhs => rw [hpr]
        conv_rhs => rw [hpr]
        exact countP_take_of_suffix_pad pad (r.count pad) (r.filter (fun x => !(x == pad)))
          _ (hflen r hr)
    · intro _ hpos r hr
      have hlr : (effective_len (create_attention_mask pad t)).toNat ≤ r.length := by
        rw [hrect r hr]
        exact helw
      refine ⟨r.take (r.length - (effective_len (create_attention_mask pad t)).toNat), ?_, ?_⟩
      · rw [pySliceLast, if_neg (Nat.pos_iff_ne_zero.mp hpos), List.take_append_drop]
      · rw [pySliceLast, if_neg (Nat.pos_iff_ne_zero.mp hpos), List.length_drop]
        omega
    · intro _ r hr
      have hlr : (effective_len (create_attention_mask pad t)).toNat ≤ r.length := by
        rw [hrect r hr]
        exact helw
      refine ⟨r.drop (effective_len (create_attention_mask pad t)).toNat, ?_, ?_⟩
      · rw [pySliceFirst, List.take_append_drop]
      · rw [pySliceFirst, List.length_take]
        omega

theorem cut_to_effective_len_keeps_tokens_witness :
    ([("attention_mask", ([[0, 1, 1], [0, 0, 1]] : List (List Int))),
        ("input_ids", [[0, 1, 2], [0, 0, 3]])].lookup "attention_mask" =
      some (create_attention_mask 0 [[0, 1, 2], [0, 0, 3]])) ∧
    (("input_ids", cut_tensor true
        ((effective_len (create_attention_mask 0 [[0, 1, 2], [0, 0, 3]])).toNat)
        [[0, 1, 2], [0, 0, 3]]) ∈
      cut_to_effective_len
        [("attention_mask", [[0, 1, 1], [0, 0, 1]]), ("input_ids", [[0, 1, 2], [0, 0, 3]])]
        ["input_ids"] true) ∧
    CutKeptSpec 0 true ((effective_len (create_attention_mask 0 [[0, 1, 2], [0, 0, 3]])).toNat)
      [[0, 1, 2], [0, 0, 3]] := by
  have h := cut_to_effective_len_keeps_tokens 0
    [("attention_mask", [[0, 1, 1], [0, 0, 1]]), ("input_ids", [[0, 1, 2], [0, 0, 3]])]
    ["input_ids"] true "input_ids" [[0, 1, 2], [0, 0, 3]] 3
    (by decide) (by decide) (by decide) (by decide)
    (by
      intro r hr
      simp only [List.mem_cons, List.not_mem_nil, or_false] at hr
      constructor
      · intro _
        rcases hr with rfl | rfl <;> (unfold paddedLeft; decide)
      · intro hf
        exact absurd hf (by decide))
  exact ⟨by decide, h.1, h.2⟩

/-- C5 counterexample: for `pad = 5` the tensor `[[5]]` satisfies every
precondition of the claim (its derived mask `[[0]]` is stored in the dict,
the single row is left-padded), `effective_len = 0`, but with
`cut_left = true` the slice does **not** keep the last `0` columns: the
tensor comes back unchanged with width `1`. -/
theorem cut_to_effective_len_zero_len_keeps_width :
    ([("attention_mask", ([[0]] : List (List Int))), ("ids", [[5]])].lookup "attention_mask" =
      some (create_attention_mask 5 [[5]])) ∧
    paddedLeft 5 [5] ∧
    (effective_len (create_attention_mask 5 [[5]])).toNat = 0 ∧
    cut_to_effective_len [("attention_mask", [[0]]), ("ids", [[5]])] ["ids"] true =
      [("attention_mask", [[0]]), ("ids", [[5]])] ∧
    ¬ (pySliceLast ((effective_len (create_attention_mask 5 [[5]])).toNat) [5]).length = 0 := by
  refine ⟨by decide, by unfold paddedLeft; decide, by decide, by decide, by decide⟩

/-! ### Claims about `concatenate_with_padding` -/

theorem cat_dim1_length (b : Nat) (ts : List (List (List Int))) (hne : ts ≠ [])
    (h : ∀ u ∈ ts, u.length = b) : (cat_dim1 ts).length = b := by
  induction ts with
  | nil => exact absurd rfl hne
  | cons t rest ih =>
    cases rest with
    | nil => simpa using h t (by simp)
    | cons t' ts' =>
      rw [cat_dim1, List.length_zipWith,
        ih (by simp) (fun u hu => h u (List.mem_cons_of_mem t hu)), h t (by simp)]
      simp

theorem cat_dim1_getD (b : Nat) (i : Nat) (hi : i < b) (ts : List (List (List Int)))
    (hne : ts ≠ []) (h : ∀ u ∈ ts, u.length = b) :
    (cat_dim1 ts).getD i [] = (ts.map (fun u => u.getD i [])).flatten := by
  induction ts with
  | nil => exact absurd rfl hne
  | cons t rest ih =>
    cases rest with
    | nil => simp [cat_dim1]
    | cons t' ts' =>
      have hrest : ∀ u ∈ t' :: ts', u.length = b :=
        fun u hu => h u (List.mem_cons_of_mem t hu)
      have hlen1 : i < t.length := by
        rw [h t (by simp)]
        exact hi
      have hlen2 : i < (cat_dim1 (t' :: ts')).length := by
        rw [cat_dim1_length b (t' :: ts') (by simp) hrest]
        exact hi
      have hzip : i < (List.zipWith (fun a c => a ++ c) t (cat_dim1 (t' :: ts'))).length := by
        rw [List.length_zipWith]
        exact lt_min hlen1 hlen2
      rw [cat_dim1, List.getD_eq_getElem _ _ hzip, List.getElem_zipWith,
        ← List.getD_eq_getElem t [] hlen1, ← List.getD_eq_getElem _ [] hlen2,
        ih (by simp) hrest]
      simp

/-- What `concatenate_with_padding` with `pad_to_left = true` guarantees
for row `i`: the output has one row per input row, the row's width is the
sum of the fragment rows' widths, and the row consists of all the pads of
the concatenated fragments on the left followed by the fragments' real
tokens in their original left-to-right order across the fragments. -/
def ConcatSpec (pad : Int) (ts : List (List (List Int))) (b : Nat) (i : Nat) : Prop :=
  (concatenate_with_padding pad ts true).length = b ∧
  ((concatenate_with_padding pad ts true).getD i []).length =
      (ts.map (fun u => (u.getD i []).length)).sum ∧
  (concatenate_with_padding pad ts true).getD i [] =
      List.replicate (((ts.map (fun u => u.getD i [])).flatten).count pad) pad ++
        ((ts.map (fun u => u.getD i [])).flatten).filter (fun x => !(x == pad))

/-- C6: concatenating row-aligned fragments and re-padding to the left
yields, in every row, all pad tokens in the leftmost columns followed by
the real tokens in their original order across the fragments, and the
total width is the sum of the fragment widths. -/
theorem concatenate_with_padding_left (pad : Int) (ts : List (List (List Int)))
    (b : Nat) (i : Nat) (hne : ts ≠ []) (hb : ∀ u ∈ ts, u.length = b) (hi : i < b) :
    ConcatSpec pad ts b i := by
  have hclen : (cat_dim1 ts).length = b := cat_dim1_length b ts hne hb
  have hcrow : (cat_dim1 ts).getD i [] = (ts.map (fun u => u.getD i [])).flatten :=
    cat_dim1_getD b i hi ts hne hb
  have hib : i < (cat_dim1 ts).length := by
    rw [hclen]
    exact hi
  have hrow : (concatenate_with_padding pad ts true).getD i [] =
      (convertRow pad true ((cat_dim1 ts).getD i [])).1 :=
    convert_fst_getD pad true (cat_dim1 ts) i hib
  refine ⟨?_, ?_, ?_⟩
  · unfold concatenate_with_padding
    rw [convert_fst_length, hclen]
  · rw [hrow, (convertRow_perm pad true _).length_eq, hcrow, List.length_flatten,
      List.map_map]
    rfl
  · rw [hrow, convertRow_fst_pads, if_pos rfl, hcrow]

theorem concatenate_with_padding_left_witness :
    (([[[9, 1], [9, 9]], [[2, 9], [3, 4]]] : List (List (List Int))) ≠ [] ∧
      (∀ u ∈ ([[[9, 1], [9, 9]], [[2, 9], [3, 4]]] : List (List (List Int))), u.length = 2) ∧
      0 < 2) ∧
    ConcatSpec 9 [[[9, 1], [9, 9]], [[2, 9], [3, 4]]] 2 0 :=
  ⟨⟨by decide, by decide, by decide⟩,
    concatenate_with_padding_left 9 [[[9, 1], [9, 9]], [[2, 9], [3, 4]]] 2 0
      (by decide) (by decide) (by decide)⟩

/-! ### Claims about the example-level scatterers -/

theorem scatterRows_length {α : Type} (padRow : List α) (m : List Bool) :
    ∀ rs : List (List α), (scatterRows padRow m rs).length = m.length := by
  induction m with
  | nil => intro rs; rfl
  | cons bb m ih =>
    intro rs
    cases bb with
    | true =>
      cases rs with
      | nil => simp [scatterRows, ih]
      | cons r rs' => simp [scatterRows, ih]
    | false => simp [scatterRows, ih]

theorem scatterRows_getD {α : Type} (padRow : List α) (m : List Bool) :
    ∀ rs : List (List α), m.count true = rs.length → ∀ i : Nat, i < m.length →
      (scatterRows padRow m rs).getD i [] =
        (if m.getD i false = true then rs.getD ((m.take i).count true) [] else padRow) := by
  induction m with
  | nil =>
    intro rs _ i hi
    simp at hi
  | cons bb m ih =>
    intro rs hc i hi
    cases bb with
    | true =>
      cases rs with
      | nil =>
        rw [List.count_cons] at hc
        simp at hc
      | cons r rs' =>
        have hc' : m.count true = rs'.length := by
          rw [List.count_cons] at hc
          simpa using hc
        cases i with
        | zero => simp [scatterRows]
        | succ i' =>
          have hstep : scatterRows padRow (true :: m) (r :: rs') =
              r :: scatterRows padRow m rs' := rfl
          rw [hstep, List.getD_cons_succ, ih rs' hc' i' (by simpa using hi)]
          simp [List.take_succ_cons, List.count_cons, List.getD_cons_succ]
    | false =>
      have hc' : m.count true = rs.length := by
        rw [List.count_cons] at hc
        simpa using hc
      cases i with
      | zero => simp [scatterRows]
      | succ i' =>
        have hstep : scatterRows padRow (false :: m) rs =
            padRow :: scatterRows padRow m rs := rfl
        rw [hstep, List.getD_cons_succ, ih rs hc' i' (by simpa using hi)]
        simp [List.take_succ_cons, List.count_cons, List.getD_cons_succ]

theorem scatterStrs_ok (strs : List String) (m : List Bool) :
    ∀ s : Nat, s + m.count true ≤ strs.length →
      ∃ out, scatterStrs strs m s = Except.ok out ∧ out.length = m.length ∧
        ∀ i : Nat, i < m.length →
          out.getD i "" =
            (if m.getD i false = true then strs.getD (s + (m.take i).count true) ""
             else "") := by
  induction m with
  | nil =>
    intro s _
    exact ⟨[], rfl, rfl, fun i hi => absurd hi (by simp)⟩
  | cons bb m ih =>
    intro s hs
    cases bb with
    | true =>
      have hcnt : s + (m.count true + 1) ≤ strs.length := by
        rw [List.count_cons] at hs
        simpa using hs
      have hslt : s < strs.length := by omega
      have hsome : strs[s]? = some (strs.getD s "") := by
        rw [List.getD_eq_getElem _ _ hslt, List.getElem?_eq_getElem hslt]
      rcases ih (s + 1) (by omega) with ⟨out, hout, hlen, hch⟩
      refine ⟨strs.getD s "" :: out, ?_, by simp [hlen], ?_⟩
      · have hstep : scatterStrs strs (true :: m) s =
            match strs[s]? with
            | some str => Except.map (fun l => str :: l) (scatterStrs strs m (s + 1))
            | none => Except.error PadErr.indexError := rfl
        rw [hstep, hsome, hout]
        rfl
      · intro i hi
        cases i with
        | zero => simp
        | succ i' =>
          rw [List.getD_cons_succ, hch i' (by simpa using hi)]
          have harith : s + 1 + (m.take i').count true = s + ((m.take i').count true + 1) := by
            omega
          simp [List.take_succ_cons, List.count_cons, List.getD_cons_succ, harith]
    | false =>
      have hcnt : s + m.count true ≤ strs.length := by
        rw [List.count_cons] at hs
        simpa using hs
      rcases ih s hcnt with ⟨out, hout, hlen, hch⟩
      refine ⟨"" :: out, ?_, by simp [hlen], ?_⟩
      · have hstep : scatterStrs strs (false :: m) s =
            Except.map (fun l => "" :: l) (scatterStrs strs m s) := rfl
        rw [hstep, hout]
        rfl
      · intro i hi
        cases i with
        | zero => simp
        | succ i' =>
          rw [List.getD_cons_succ, hch i' (by simpa using hi)]
          simp [List.take_succ_cons, List.count_cons, List.getD_cons_succ]

theorem scatterStrs_err (strs : List String) (m : List Bool) :
    ∀ s : Nat, s ≤ strs.length → strs.length < s + m.count true →
      scatterStrs strs m s = Except.error PadErr.indexError := by
  induction m with
  | nil =>
    intro s hs hlt
    rw [List.count_nil] at hlt
    omega
  | cons bb m ih =>
    intro s hs hlt
    cases bb with
    | true =>
      have hcnt : strs.length < s + (m.count true + 1) := by
        rw [List.count_cons] at hlt
        simpa using hlt
      by_cases hseq : s < strs.length
      · have hsome : strs[s]? = some (strs.getD s "") := by
          rw [List.getD_eq_getElem _ _ hseq, List.getElem?_eq_getElem hseq]
        have hstep : scatterStrs strs (true :: m) s =
            match strs[s]? with
            | some str => Except.map (fun l => str :: l) (scatterStrs strs m (s + 1))
            | none => Except.error PadErr.indexError := rfl
        rw [hstep, hsome, ih (s + 1) (by omega) (by omega)]
        rfl
      · have hnone : strs[s]? = none := by
          rw [List.getElem?_eq_none]
          omega
        have hstep : scatterStrs strs (true :: m) s =
            match strs[s]? with
            | some str => Except.map (fun l => str :: l) (scatterStrs strs m (s + 1))
            | none => Except.error PadErr.indexError := rfl
        rw [hstep, hnone]
    | false =>
      have hcnt : strs.length < s + m.count true := by
        rw [List.count_cons] at hlt
        simpa using hlt
      have hstep : scatterStrs strs (false :: m) s =
          Except.map (fun l => "" :: l) (scatterStrs strs m s) := rfl
      rw [hstep, ih s hs hcnt]
      rfl

theorem scatterStrs_ne_assertionError (strs : List String) (m : List Bool) :
    ∀ s : Nat, scatterStrs strs m s ≠ Except.error PadErr.assertionError := by
  induction m with
  | nil =>
    intro s h
    exact Except.noConfusion h
  | cons bb m ih =>
    intro s h
    cases bb with
    | true =>
      have hstep : scatterStrs strs (true :: m) s =
          match strs[s]? with
          | some str => Except.map (fun l => str :: l) (scatterStrs strs m (s + 1))
          | none => Except.error PadErr.indexError := rfl
      rw [hstep] at h
      cases hv : strs[s]? with
      | none =>
        rw [hv] at h
        simp at h
      | some str =>
        rw [hv] at h
        cases hrec : scatterStrs strs m (s + 1) with
        | ok out =>
          rw [hrec] at h
          simp [Except.map] at h
        | error e =>
          rw [hrec] at h
          simp [Except.map] at h
          exact ih (s + 1) (by rw [hrec, h])
    | false =>
      have hstep : scatterStrs strs (false :: m) s =
          Except.map (fun l => "" :: l) (scatterStrs strs m s) := rfl
      rw [hstep] at h
      cases hrec : scatterStrs strs m s with
      | ok out =>
        rw [hrec] at h
        simp [Except.map] at h
      | error e =>
        rw [hrec] at h
        simp [Except.map] at h
        exact ih s (by rw [hrec, h])

/-- What `_example_level_pad` produces on success: one output row and one
output string per mask entry; the i-th `True` position receives the i-th
active row and the i-th active string; every `False` position receives a
pad-token row and the empty string. -/
def ScatterSpec (ptid : Int) (responses : List (List Int))
    (responses_str : List String) (am : List Bool) : Prop :=
  ∃ out outs, _example_level_pad ptid responses responses_str am = Except.ok (out, outs) ∧
    out.length = am.length ∧ outs.length = am.length ∧
    ∀ i : Nat, i < am.length →
      (am.getD i false = true →
        out.getD i [] = responses.getD ((am.take i).count true) [] ∧
        outs.getD i "" = responses_str.getD ((am.take i).count true) "") ∧
      (am.getD i false = false →
        out.getD i [] = List.replicate (responses.headD []).length ptid ∧
        outs.getD i "" = "")

/-- What `_example_level_pad_tensor` produces on success: one output row
per mask entry; the i-th `True` position receives the i-th active row;
every `False` position receives a row filled with `pad_value`. -/
def ScatterTensorSpec {α : Type} (pv : α) (x : List (List α)) (am : List Bool) : Prop :=
  ∃ out, _example_level_pad_tensor x am pv = Except.ok out ∧
    out.length = am.length ∧
    ∀ i : Nat, i < am.length →
      (am.getD i false = true → out.getD i [] = x.getD ((am.take i).count true) []) ∧
      (am.getD i false = false → out.getD i [] = List.replicate (x.headD []).length pv)

/-- C7 (amended): when the count of `True` mask entries equals the number
of active rows — and, for the string variant, `responses_str` supplies at
least that many strings — both scatterers succeed, produce one output
entry per mask position, route the i-th active row (and string) to the
i-th `True` position, and fill every inactive position with the pad value
(pad-token row and empty string, or `pad_value` row). -/
theorem example_level_pad_scatters {α : Type} (ptid : Int) (responses : List (List Int))
    (responses_str : List String) (am : List Bool) (pv : α) (x : List (List α))
    (am2 : List Bool)
    (h1 : am.count true = responses.length)
    (h2 : am.count true ≤ responses_str.length)
    (h3 : am2.count true = x.length) :
    ScatterSpec ptid responses responses_str am ∧ ScatterTensorSpec pv x am2 := by
  constructor
  · rcases scatterStrs_ok responses_str am 0 (by omega) with ⟨outs, houts, hlen, hch⟩
    refine ⟨scatterRows (List.replicate (responses.headD []).length ptid) am responses,
      outs, ?_, scatterRows_length _ am responses, hlen, ?_⟩
    · unfold _example_level_pad
      rw [if_pos h1, houts]
    · intro i hi
      have hrow := scatterRows_getD (List.replicate (responses.headD []).length ptid)
        am responses h1 i hi
      have hstr := hch i hi
      constructor
      · intro ha
        refine ⟨?_, ?_⟩
        · rw [hrow, if_pos ha]
        · rw [hstr, if_pos ha, Nat.zero_add]
      · intro hna
        have hfalse : ¬ am.getD i false = true := by
          rw [hna]
          exact Bool.false_ne_true
        refine ⟨?_, ?_⟩
        · rw [hrow, if_neg hfalse]
        · rw [hstr, if_neg hfalse]
  · refine ⟨scatterRows (List.replicate (x.headD []).length pv) am2 x, ?_,
      scatterRows_length _ am2 x, ?_⟩
    · unfold _example_level_pad_tensor
      rw [if_pos h3]
    · intro i hi
      have hrow := scatterRows_getD (List.replicate (x.headD []).length pv) am2 x h3 i hi
      constructor
      · intro ha
        rw [hrow, if_pos ha]
      · intro hna
        have hfalse : ¬ am2.getD i false = true := by
          rw [hna]
          exact Bool.false_ne_true
        rw [hrow, if_neg hfalse]

theorem example_level_pad_scatters_witness :
    (([true, false, true] : List Bool).count true =
        ([[1, 2], [3, 4]] : List (List Int)).length ∧
      ([true, false, true] : List Bool).count true ≤ (["x", "y"] : List String).length ∧
      ([false, true, true] : List Bool).count true =
        ([[5], [6]] : List (List Int)).length) ∧
    (ScatterSpec 0 [[1, 2], [3, 4]] ["x", "y"] [true, false, true] ∧
      ScatterTensorSpec (7 : Int) [[5], [6]] [false, true, true]) :=
  ⟨⟨by decide, by decide, by decide⟩,
    example_level_pad_scatters 0 [[1, 2], [3, 4]] ["x", "y"] [true, false, true]
      (7 : Int) [[5], [6]] [false, true, true] (by decide) (by decide) (by decide)⟩

/-- C7 counterexample: `active_mask = [true, false, true]` with active rows
`[[1], [2]]` satisfies the claim's precondition (two `True` entries, two
rows), but with a single active string `["x"]` the string loop indexes
past the end of the list: the call raises an index error instead of
returning the scattered batch the claim promises. -/
theorem example_level_pad_string_shortfall :
    ([true, false, true] : List Bool).count true = ([[1], [2]] : List (List Int)).length ∧
    _example_level_pad 0 [[1], [2]] ["x"] [true, false, true] =
      Except.error PadErr.indexError ∧
    ¬ ∃ r, _example_level_pad 0 [[1], [2]] ["x"] [true, false, true] = Except.ok r := by
  refine ⟨by decide, rfl, ?_⟩
  rintro ⟨r, hr⟩
  rw [show _example_level_pad (0 : Int) [[1], [2]] ["x"] [true, false, true] =
      Except.error PadErr.indexError from rfl] at hr
  exact Except.noConfusion hr

/-- C8 (amended): both scatterers fail with the fatal assertion exactly
when the count of `True` mask entries differs from the active row count,
and succeed (for the tensor variant) exactly otherwise; the string
variant, however, can still raise an index error — not the assertion —
when the precondition holds but `responses_str` has fewer entries than the
`True` count, and succeeds exactly when the strings suffice. -/
theorem example_level_pad_assertion_behaviour {α : Type} (ptid : Int)
    (responses : List (List Int)) (responses_str : List String) (am : List Bool)
    (pv : α) (x : List (List α)) (am2 : List Bool) :
    ((_example_level_pad_tensor x am2 pv = Except.error PadErr.assertionError) ↔
      am2.count true ≠ x.length) ∧
    ((∃ out, _example_level_pad_tensor x am2 pv = Except.ok out) ↔
      am2.count true = x.length) ∧
    ((_example_level_pad ptid responses responses_str am =
        Except.error PadErr.assertionError) ↔ am.count true ≠ responses.length) ∧
    (am.count true = responses.length →
      ((∃ r, _example_level_pad ptid responses responses_str am = Except.ok r) ↔
        am.count true ≤ responses_str.length) ∧
      (responses_str.length < am.count true →
        _example_level_pad ptid responses responses_str am =
          Except.error PadErr.indexError)) := by
  refine ⟨?_, ?_, ?_, ?_⟩
  · unfold _example_level_pad_tensor
    by_cases hc : am2.count true = x.length
    · rw [if_pos hc]
      simp [hc]
    · rw [if_neg hc]
      simp [hc]
  · unfold _example_level_pad_tensor
    by_cases hc : am2.count true = x.length
    · rw [if_pos hc]
      exact ⟨fun _ => hc, fun _ => ⟨_, rfl⟩⟩
    · rw [if_neg hc]
      constructor
      · rintro ⟨out, hout⟩
        exact absurd hout (by simp)
      · intro h
        exact absurd h hc
  · unfold _example_level_pad
    by_cases hc : am.count true = responses.length
    · rw [if_pos hc]
      cases hs : scatterStrs responses_str am 0 with
      | ok strs => simp [hc]
      | error e =>
        have hne : e ≠ PadErr.assertionError := by
          intro he
          exact scatterStrs_ne_assertionError responses_str am 0 (by rw [hs, he])
        simp [hc, hne]
    · rw [if_neg hc]
      simp [hc]
  · intro hc
    constructor
    · constructor
      · rintro ⟨r, hr⟩
        by_contra hlt
        push_neg at hlt
        have herr := scatterStrs_err responses_str am 0 (Nat.zero_le _) (by omega)
        unfold _example_level_pad at hr
        rw [if_pos hc, herr] at hr
        exact Except.noConfusion hr
      · intro hle
        rcases scatterStrs_ok responses_str am 0 (by omega) with ⟨outs, houts, _, _⟩
        refine ⟨(scatterRows (List.replicate (responses.headD []).length ptid) am responses,
          outs), ?_⟩
        unfold _example_level_pad
        rw [if_pos hc, houts]
    · intro hlt
      have herr := scatterStrs_err responses_str am 0 (Nat.zero_le _) (by omega)
      unfold _example_level_pad
      rw [if_pos hc, herr]

/-- C8 counterexample: `active_mask = [true]` and the single active row
`[[5]]` satisfy the asserted precondition, yet the string variant still
raises — an index error, not the assertion — because no active string is
supplied; so "precondition holds implies neither variant raises" is false. -/
theorem example_level_pad_raises_despite_assert :
    ([true] : List Bool).count true = ([[5]] : List (List Int)).length ∧
    _example_level_pad 0 [[5]] [] [true] = Except.error PadErr.indexError :=
  ⟨by decide, rfl⟩

/-! ### Claims about `pad_and_stack` -/

theorem foldl_max_mem (l : List Nat) : ∀ acc : Nat, l.foldl max acc ∈ l ∨ l.foldl max acc = acc := by
  induction l with
  | nil =>
    intro acc
    right
    rfl
  | cons x t ih =>
    intro acc
    rcases ih (max acc x) with h | h
    · left
      exact List.mem_cons_of_mem x h
    · rcases max_choice acc x with hm | hm
      · right
        rw [List.foldl_cons, h, hm]
      · left
        rw [List.foldl_cons, h, hm]
        exact List.mem_cons_self x t

/-- What `pad_and_stack` guarantees on a non-empty input list: it succeeds,
keeps one output row per input sequence in order, every output row has
width `max_length` (the maximum input length, which is attained by some
input), and each row is the original sequence with `max_length - len`
copies of the pad value (the supplied one, or `pad_token_id` when `none`)
glued to the left (`pad_to_left = true`) or to the right — never any
truncation. -/
def PadStackSpec (ptid : Int) (tl : List (List Int)) (ptl : Bool) (pv : Option Int) : Prop :=
  ∃ out, pad_and_stack ptid tl ptl pv = some out ∧
    out.length = tl.length ∧
    (∀ r ∈ tl, r.length ≤ (tl.map List.length).foldl max 0) ∧
    (∃ r ∈ tl, r.length = (tl.map List.length).foldl max 0) ∧
    ∀ i : Nat, i < tl.length →
      out.getD i [] =
        (if ptl then
          List.replicate ((tl.map List.length).foldl max 0 - (tl.getD i []).length)
            (pv.getD ptid) ++ tl.getD i []
        else
          tl.getD i [] ++
            List.replicate ((tl.map List.length).foldl max 0 - (tl.getD i []).length)
              (pv.getD ptid)) ∧
      (out.getD i []).length = (tl.map List.length).foldl max 0

/-- C9: on a non-empty list of 1-D sequences, `pad_and_stack` stacks them
in order into a rectangular batch of width equal to the maximum input
length, padding each sequence on the requested side with the pad value
(defaulting to `pad_token_id`) and never truncating. -/
theorem pad_and_stack_pads (ptid : Int) (tl : List (List Int)) (ptl : Bool)
    (pv : Option Int) (hne : tl ≠ []) : PadStackSpec ptid tl ptl pv := by
  have hemp : tl.isEmpty = false := by
    cases tl with
    | nil => exact absurd rfl hne
    | cons a t => rfl
  have hle : ∀ r ∈ tl, r.length ≤ (tl.map List.length).foldl max 0 :=
    fun r hr => mem_le_foldl_max _ 0 _ (List.mem_map_of_mem List.length hr)
  have hattain : ∃ r ∈ tl, r.length = (tl.map List.length).foldl max 0 := by
    rcases foldl_max_mem (tl.map List.length) 0 with h | h
    · rcases List.mem_map.mp h with ⟨r, hr, hlen⟩
      exact ⟨r, hr, hlen⟩
    · cases tl with
      | nil => exact absurd rfl hne
      | cons a t =>
        refine ⟨a, by simp, ?_⟩
        have ha : a.length ≤ ((a :: t).map List.length).foldl max 0 :=
          hle a (by simp)
        rw [h] at ha ⊢
        omega
  refine ⟨tl.map (fun r =>
      if ptl then
        List.replicate ((tl.map List.length).foldl max 0 - r.length) (pv.getD ptid) ++ r
      else
        r ++ List.replicate ((tl.map List.length).foldl max 0 - r.length) (pv.getD ptid)),
    ?_, List.length_map tl _, hle, hattain, ?_⟩
  · unfold pad_and_stack
    rw [hemp]
    rfl
  · intro i hi
    have hrowmem : tl.getD i [] ∈ tl := by
      rw [List.getD_eq_getElem _ _ hi]
      exact List.getElem_mem hi
    have hlerow : (tl.getD i []).length ≤ (tl.map List.length).foldl max 0 :=
      hle _ hrowmem
    rw [getD_map_of_lt _ tl [] [] i hi]
    refine ⟨rfl, ?_⟩
    cases ptl with
    | true =>
      rw [if_pos rfl, List.length_append, List.length_replicate]
      omega
    | false =>
      rw [if_neg (by simp), List.length_append, List.length_replicate]
      omega

theorem pad_and_stack_pads_witness :
    (([[1, 2, 3], [4, 5]] : List (List Int)) ≠ [] ∧
      pad_and_stack 9 [[1, 2, 3], [4, 5]] false (some 0) = some [[1, 2, 3], [4, 5, 0]] ∧
      pad_and_stack 9 [[1, 2, 3], [4, 5]] true (some 0) = some [[1, 2, 3], [0, 4, 5]]) ∧
    PadStackSpec 9 [[1, 2, 3], [4, 5]] false (some 0) :=
  ⟨⟨by decide, by decide, by decide⟩,
    pad_and_stack_pads 9 [[1, 2, 3], [4, 5]] false (some 0) (by decide)⟩

/-- C10: `pad_and_stack` applied to an empty list raises (Python's `max`
of an empty sequence raises `ValueError`, modelled as `none`); it never
returns a well-shaped empty batch. -/
theorem pad_and_stack_empty (ptid : Int) (ptl : Bool) (pv : Option Int) :
    pad_and_stack ptid [] ptl pv = none := rfl

end TensorHelper
